import Mathlib

/-! Verification of the throttled pagination fetcher of `go-demo`.

Shallow embedding of `mtg/card.go` and `mtg/throttler.go`.

* Go `int` values are `Int` (64 bits: the loop counter of `gatherMetaData`
  wraps at `2 ^ 63`); the `uint64` counters are `Nat` with an explicit
  reduction modulo `2 ^ 64` at every conversion and increment.
* A buffered channel of `int` is a FIFO buffer with a capacity; a send on a
  full channel and a receive on an empty one do not return (`none`).
* A call can end in four ways (`Exec`): normal return, process exit
  (`log.Fatalf`), a panic that is still unwinding, or blocked for ever.
* The `Client` interface is the environment.  `FetchWithMetaData` is the
  triple the call returns; `Fetch page k` is what the `k`-th call for `page`
  returns (cards, an error, or an abnormal fault).
* Goroutines are interleaved at the granularity of one `processPage` call:
  its writes are a channel send, or an append under the storage mutex
  followed by an atomic add, and the coordinator reads only the channel and
  the counter, so every execution is equivalent to one where each call runs
  in one piece.
* Logging, the mutex of the storage and the timer carry no state here.  The
  deferred `close` of `Run` acts on the channel that `NewThrottler` made (its
  argument is evaluated at the `defer` statement), which nothing uses after
  `gatherMetaData`, so it is not represented.
* `make` checks the size of a channel as the run time of a 64-bit platform
  does; an allocation that passes this check succeeds.
-/

namespace Mtg

/-! ## Data model (`card.go`) -/

/-- Card represents a MTG Card item. -/
structure Card where
  Name : String
  Colors : List String
  Rarity : String
  Set : String
deriving DecidableEq, Repr

/-- CardStorage represents a Card list storage in memory (the mutex carries
no data and is not represented). -/
structure CardStorage where
  Cards : List Card
deriving DecidableEq, Repr

/-! ## Outcomes of a call -/

/-- How the execution of a function on a state ends; every outcome carries
the state at that moment. -/
inductive Exec (σ : Type) where
  /-- normal return -/
  | done (s : σ)
  /-- the process was terminated (`log.Fatalf`) -/
  | exited (s : σ)
  /-- a panic is unwinding the stack -/
  | panicking (s : σ)
  /-- blocked for ever on a channel operation -/
  | blocked (s : σ)
deriving DecidableEq, Repr

/-! ## Channels of `int` -/

/-- Buffered channel: pending values (oldest first) and capacity. -/
structure Chan where
  buf : List Int
  cap : Nat
deriving DecidableEq, Repr

/-- Modelled from the spec: the constant `maxAlloc` of the Go run time, which
is not part of the repository.  This is its value on a 64-bit platform
(linux/amd64): the largest size of one allocation, in bytes. -/
def maxAlloc : Int := 2 ^ 48

/-- Modelled from the spec: the constant `hchanSize` of the Go run time, which
is not part of the repository.  This is its value on a 64-bit platform (up to
Go 1.22): the size of the header of a channel, in bytes. -/
def hchanSize : Int := 96

/-- The size of an `int`, the element of the queue, in bytes. -/
def intSize : Int := 8

namespace Chan

/-- The call `make(chan int)`: a channel without buffer. -/
def unbuffered : Chan := { buf := [], cap := 0 }

/-- The call `make(chan int, n)`; `none` when it panics with "size out of
range": the size is negative, or the size of the buffer in bytes overflows a
machine word or exceeds `maxAlloc - hchanSize`. -/
def make (n : Int) : Option Chan :=
  if n < 0 ∨ 2 ^ 64 ≤ intSize * n ∨ maxAlloc - hchanSize < intSize * n then none
  else some { buf := [], cap := n.toNat }

/-- The builtin `len(ch)`. -/
def len (ch : Chan) : Int := (ch.buf.length : Int)

/-- The statement `ch <- v`; `none` when the send cannot proceed (buffer full). -/
def send (ch : Chan) (v : Int) : Option Chan :=
  if ch.buf.length < ch.cap then some { ch with buf := ch.buf ++ [v] } else none

/-- The expression `<-ch`; `none` when the receive cannot proceed (buffer empty). -/
def recv (ch : Chan) : Option (Int × Chan) :=
  match ch.buf with
  | [] => none
  | v :: rest => some (v, { ch with buf := rest })

end Chan

/-! ## The client interface (`client.go`) -/

/-- Result of one call of `Client.Fetch`. -/
inductive FetchResult where
  /-- cards and a nil error -/
  | ok (cards : List Card)
  /-- a non-nil error -/
  | err (msg : String)
  /-- the call raised an abnormal fault: a panic, whose value `recover()`
  returns non-nil (a run-time error always carries one) -/
  | fault
deriving DecidableEq, Repr

/-- The `Client` interface seen from the throttler.  `Fetch page k` is the
result of the `k`-th call (counted from 0) of `Fetch(page)`;
`FetchWithMetaData` is the returned triple of cards, meta data (a Go map read
with default 0) and error. -/
structure Client where
  Fetch : Int → Nat → FetchResult
  FetchWithMetaData : List Card × (String → Int) × Option String

/-! ## The throttler (`throttler.go`) -/

/-- Conversion `uint64(i)` of a Go `int`. -/
def uint64 (i : Int) : Nat := (i % 2 ^ 64).toNat

/-- The value of an arithmetic result as a Go `int` (64 bits, two's
complement). -/
def wrapInt (x : Int) : Int := (x + 2 ^ 63) % 2 ^ 64 - 2 ^ 63

def maxConcurrencyPerSecond : Int := 3

/-- The `throttler` struct; its `client` field is passed separately. -/
structure throttler where
  maxBurstRequests : Int
  unprocessedPagesQueue : Chan
  processedPages : Nat
  totalPages : Nat
  storage : CardStorage
deriving DecidableEq, Repr

/-- NewThrottler creates a Throttler service with the given dependencies. -/
def NewThrottler (s : CardStorage) : throttler :=
  { maxBurstRequests := maxConcurrencyPerSecond
    unprocessedPagesQueue := Chan.unbuffered
    processedPages := 0
    totalPages := 0
    storage := s }

/-- The loop `for i := 2; i <= totalPages; i++` of `gatherMetaData`, which
sends `i` to the queue, from the value `i` of the counter on; `i++` wraps as a
Go `int` does.  The first argument bounds the number of iterations: every
iteration sends one value and nothing receives, so the loop has returned or
is blocked on a full queue before `cap + 1` iterations are over. -/
def fillQueue : Nat → Int → Int → throttler → Exec throttler
  | 0, _, _, t => .blocked t
  | fuel + 1, totalPages, i, t =>
    if i ≤ totalPages then
      match t.unprocessedPagesQueue.send i with
      | none => .blocked t
      | some q =>
        fillQueue fuel totalPages (wrapInt (i + 1)) { t with unprocessedPagesQueue := q }
    else .done t

/-- The method `gatherMetaData`. -/
def gatherMetaData (c : Client) (t : throttler) : Exec throttler :=
  match c.FetchWithMetaData with
  | (cards, metaData, err) =>
    if err.isSome then
      -- Fatal - exit call - as we need this data to start working.
      .exited t
    else
      match Chan.make (metaData "totalPages") with
      | none =>
        -- make panics: size out of range
        .panicking t
      | some q =>
        fillQueue (q.cap + 1) (metaData "totalPages") 2
          { t with
            unprocessedPagesQueue := q
            processedPages := 1
            totalPages := uint64 (metaData "totalPages")
            storage := { Cards := t.storage.Cards ++ cards } }

/-- The method `noMorePageToProcess`. -/
def noMorePageToProcess (t : throttler) : Bool :=
  t.processedPages == t.totalPages

/-- The method `burstRequests`. -/
def burstRequests (t : throttler) : Int :=
  let n := t.unprocessedPagesQueue.len
  if n > t.maxBurstRequests then t.maxBurstRequests else n

/-- What `processPage` reads and writes: the throttler, the counter of the
`sync.WaitGroup`, and the history of the `client.Fetch` calls made so far. -/
structure World where
  t : throttler
  wg : Int
  fetchLog : List Int
deriving DecidableEq, Repr

/-- The call `wg.Done()`: the counter goes down by one, and a negative counter
panics. -/
def wgDone (w : World) : Exec World :=
  if w.wg - 1 < 0 then .panicking { w with wg := w.wg - 1 }
  else .done { w with wg := w.wg - 1 }

/-- Body of `processPage` (after the two `defer` statements); `fetch` is the
result of this call of `t.client.Fetch(page)`. -/
def processPageBody (fetch : FetchResult) (w : World) (page : Int) : Exec World :=
  let w1 : World := { w with fetchLog := w.fetchLog ++ [page] }
  match fetch with
  | .fault => .panicking w1
  | .err _ =>
    -- Error fetching the page. Put back the page to be processed again.
    match w1.t.unprocessedPagesQueue.send page with
    | none => .blocked w1
    | some q => .done { w1 with t := { w1.t with unprocessedPagesQueue := q } }
  | .ok cards =>
    .done { w1 with
      t := { w1.t with
        storage := { Cards := w1.t.storage.Cards ++ cards }
        processedPages := (w1.t.processedPages + 1) % 2 ^ 64 } }

/-- The deferred `wg.Done()`: runs on return and while a panic unwinds; a
goroutine that blocked or a process that exited never runs it. -/
def deferWgDone : Exec World → Exec World
  | .done w => wgDone w
  | .panicking w =>
    match wgDone w with
    | .done w1 => .panicking w1
    | other => other
  | other => other

/-- The first deferred closure of `processPage`: when a panic is unwinding it
is recovered and the page is put back to be processed again. -/
def deferRecover (page : Int) : Exec World → Exec World
  | .panicking w =>
    match w.t.unprocessedPagesQueue.send page with
    | none => .blocked w
    | some q => .done { w with t := { w.t with unprocessedPagesQueue := q } }
  | other => other

/-- The method `processPage`: the body, then the deferred calls in reverse
order of their `defer` statements. -/
def processPage (fetch : FetchResult) (w : World) (page : Int) : Exec World :=
  deferRecover page (deferWgDone (processPageBody fetch w page))

/-! ## `Run` as a transition system -/

/-- Where the goroutine executing `Run` stands. -/
inductive Loc where
  /-- inside `gatherMetaData`, before the loop -/
  | gathering
  /-- at the head of the `for` loop, before `noMorePageToProcess` -/
  | loopTop
  /-- in the loop, waiting for the next tick of the timer -/
  | ticking
  /-- inside the burst loop: `i` tasks launched out of `n` -/
  | burst (i n : Int)
  /-- after `break`, in the deferred `wg.Wait()` -/
  | waiting
  /-- `Run` has returned -/
  | returned
  /-- an unrecovered panic left a goroutine -/
  | crashed
deriving DecidableEq, Repr

/-- State of a run: the shared data, the pages of the `processPage`
goroutines launched and not yet finished, and the position of `Run`. -/
structure Sys where
  w : World
  running : List Int
  loc : Loc
deriving DecidableEq, Repr

/-- The two kinds of step: `Run` itself advances, or the `processPage`
goroutine of a page runs to its end. -/
inductive Action where
  | run
  | finish (page : Int)
deriving DecidableEq, Repr

/-- One step of `Run` proper (lines 76-90 and the deferred `wg.Wait()`). -/
def stepRun (s : Sys) : Option Sys :=
  match s.loc with
  | .gathering => none
  | .loopTop =>
    if noMorePageToProcess s.w.t then some { s with loc := .waiting }
    else some { s with loc := .ticking }
  | .ticking =>
    -- <-timer.C; n := t.burstRequests()
    some { s with loc := .burst 0 (burstRequests s.w.t) }
  | .burst i n =>
    if i < n then
      -- wg.Add(1); go t.processPage(&wg, <-t.unprocessedPagesQueue)
      match s.w.t.unprocessedPagesQueue.recv with
      | none => none
      | some (page, q) =>
        some { w := { s.w with
                  wg := s.w.wg + 1
                  t := { s.w.t with unprocessedPagesQueue := q } }
               running := s.running ++ [page]
               loc := .burst (i + 1) n }
    else some { s with loc := .loopTop }
  | .waiting => if s.w.wg = 0 then some { s with loc := .returned } else none
  | .returned => none
  | .crashed => none

/-- The `processPage` goroutine of `page` runs to its end. -/
def stepFinish (c : Client) (s : Sys) (page : Int) : Option Sys :=
  if page ∈ s.running ∧ s.loc ≠ .crashed then
    match processPage (c.Fetch page (s.w.fetchLog.count page)) s.w page with
    | .done w1 => some { s with w := w1, running := s.running.erase page }
    | .panicking w1 => some { w := w1, running := s.running.erase page, loc := .crashed }
    | .exited _ => none
    | .blocked _ => none
  else none

/-- One step of the system. -/
def step (c : Client) (s : Sys) : Action → Option Sys
  | .run => stepRun s
  | .finish page => stepFinish c s page

/-- A sequence of steps. -/
def steps (c : Client) (s : Sys) : List Action → Option Sys
  | [] => some s
  | a :: as => (step c s a).bind fun s1 => steps c s1 as

/-- The beginning of `Run` on a fresh throttler: `gatherMetaData`, then the
wait group is created and the loop is entered. -/
def start (c : Client) (st : CardStorage) : Exec Sys :=
  match gatherMetaData c (NewThrottler st) with
  | .done t => .done { w := { t := t, wg := 0, fetchLog := [] }, running := [], loc := .loopTop }
  | .exited t => .exited { w := { t := t, wg := 0, fetchLog := [] }, running := [], loc := .gathering }
  | .panicking t => .panicking { w := { t := t, wg := 0, fetchLog := [] }, running := [], loc := .crashed }
  | .blocked t => .blocked { w := { t := t, wg := 0, fetchLog := [] }, running := [], loc := .gathering }

/-- The states a run of `Run` goes through after `gatherMetaData`. -/
def Reachable (c : Client) (st : CardStorage) (s : Sys) : Prop :=
  ∃ s0 acts, start c st = .done s0 ∧ steps c s0 acts = some s

/-- The pages `2, 3, ..., N` in ascending order. -/
def pagesFrom2 (N : Int) : List Int :=
  (List.range' 2 (N - 1).toNat).map Int.ofNat

/-- Invariant of a run whose meta data announced `N` pages. -/
structure Inv (c : Client) (st : CardStorage) (N : Int) (s : Sys) : Prop where
  total : s.w.t.totalPages = N.toNat
  maxBurst : s.w.t.maxBurstRequests = 3
  cap : s.w.t.unprocessedPagesQueue.cap = N.toNat
  wg : s.w.wg = (s.running.length : Int)
  alive : s.loc ≠ .crashed
  started : s.loc ≠ .gathering
  pages : ∃ done : List (Int × List Card),
    (s.w.t.unprocessedPagesQueue.buf ++ s.running ++ done.map Prod.fst).Perm (pagesFrom2 N) ∧
    s.w.t.processedPages = 1 + done.length ∧
    s.w.t.storage.Cards.Perm (st.Cards ++ c.FetchWithMetaData.1 ++ (done.map Prod.snd).flatten) ∧
    ∀ x ∈ done, ∃ k, c.Fetch x.1 k = .ok x.2
  burst : ∀ i n, s.loc = .burst i n →
    0 ≤ i ∧ i ≤ n ∧ n ≤ 3 ∧ n - i ≤ s.w.t.unprocessedPagesQueue.len
  finished : s.loc = .waiting ∨ s.loc = .returned → s.w.t.processedPages = s.w.t.totalPages

/-- Invariant of the burst loop: the bound of the throttler, and inside a
burst the tasks still to launch are covered by the queue. -/
structure BurstInv (s : Sys) : Prop where
  maxBurst : s.w.t.maxBurstRequests = 3
  burst : ∀ i n, s.loc = .burst i n →
    0 ≤ i ∧ i ≤ n ∧ n ≤ 3 ∧ n - i ≤ s.w.t.unprocessedPagesQueue.len

/-! ## Sorting and filtering (`card.go`) -/

/-- Modelled from the spec: `strings.ToLower` belongs to the Go standard
library and is not part of the repository.  This is its action on ASCII text
(the colour names are ASCII): the letters `A` to `Z` are lowered. -/
def ToLower (s : String) : String := String.mk (s.data.map Char.toLower)

/-- The function `containsColors`: counts the colours equal, once lowered, to
one of the two wanted colours. -/
def containsColors (colors : List String) (colorWantedOne colorWantedTwo : String) : Bool :=
  let matched := colors.foldl
    (fun (m : Nat) c =>
      let c := ToLower c
      if c == colorWantedOne || c == colorWantedTwo then m + 1 else m) 0
  if matched == 2 then true else false

/-- FilterKTKColors filters the given Card slice by the two given colors which
must be present (both). -/
def FilterKTKColors (cards : List Card) (colorWantedOne colorWantedTwo : String) : List Card :=
  cards.foldl
    (fun result c =>
      if c.Set == "KTK" && containsColors c.Colors colorWantedOne colorWantedTwo then
        result ++ [c]
      else result) []

/-- Inner loop of the insertion sort, which swaps the elements `j` and `j-1`
for `j := i; j > a && less(j, j-1); j--`: the element `x` at index `i` moves
left past every predecessor it is less than.  The sorted prefix is given last
element first. -/
def sinkLeft {α : Type} (less : α → α → Bool) (x : α) : List α → List α
  | [] => [x]
  | y :: ys => if less x y then y :: sinkLeft less x ys else x :: y :: ys

/-- Modelled from the spec: `sort.Slice` belongs to the Go standard library
and is not part of the repository.  This is the insertion sort that
`sort.Slice` runs on a slice of at most 12 elements (on longer slices the
library uses another comparison sort, whose result can differ only in the
relative order of elements that compare equal). -/
def sortSlice {α : Type} (less : α → α → Bool) (l : List α) : List α :=
  (l.foldl (fun rev x => sinkLeft less x rev) []).reverse

/-- SortBySet sorts the given Card slice by its "set" field in ascending
order; the result is the slice after the call.  Go compares strings byte by
byte, which on UTF-8 text is the order of the code points, the order of `<`
on `String`. -/
def SortBySet (c : List Card) : List Card :=
  sortSlice (fun a b => decide (a.Set < b.Set)) c

/-! ## Data of the tests and of the examples -/

/-- The variable `cardsUnsortedInput` of `card_test.go`. -/
def cardsUnsortedInput : List Card :=
  [ { Name := "Abundance", Colors := ["Green"], Rarity := "Rare", Set := "5FC" },
    { Name := "Academy Researchers", Colors := ["Blue"], Rarity := "Uncommon", Set := "10E" },
    { Name := "Adarkar Wastes", Colors := [], Rarity := "Rare", Set := "Z8A" } ]

/-- The variable `cardsGold` of `card_test.go`. -/
def cardsGold : List Card :=
  [ { Name := "Academy Researchers", Colors := ["Blue"], Rarity := "Uncommon", Set := "10E" },
    { Name := "Abundance", Colors := ["Green"], Rarity := "Rare", Set := "5FC" },
    { Name := "Adarkar Wastes", Colors := [], Rarity := "Rare", Set := "Z8A" } ]

/-- A card of the set KTK with three colours. -/
def mantisRider : Card :=
  { Name := "Mantis Rider", Colors := ["Blue", "Red", "White"], Rarity := "Rare", Set := "KTK" }

/-- Records served for a page in the examples: page `p` holds `p` cards. -/
def demoRecords (p : Int) : List Card :=
  List.replicate p.toNat { Name := "Island", Colors := ["Blue"], Rarity := "Common", Set := "KTK" }

/-- The example scenario of the specification: five pages, and page 3 fails
once before it succeeds. -/
def demoClient : Client where
  Fetch := fun p k => if p = 3 ∧ k = 0 then .err "could not fetch data" else .ok (demoRecords p)
  FetchWithMetaData := (demoRecords 1, fun key => if key = "totalPages" then 5 else 100, none)

/-- The meta data returned by `demoClient`. -/
def demoMeta : String → Int := fun key => if key = "totalPages" then 5 else 100

/-- A schedule of the example scenario that runs to the return of `Run`. -/
def demoActs : List Action :=
  [.run, .run, .run, .run, .run, .run, .finish 2, .finish 3, .finish 4,
   .run, .run, .run, .run, .run, .finish 5, .finish 3, .run, .run]

/-- The first steps of `demoActs`: a tick, then pages 2 and 3 are launched. -/
def demoBurstActs : List Action := [.run, .run, .run, .run]

/-- State of the example scenario after `gatherMetaData`. -/
def demoStart : Sys :=
  { w := { t := { maxBurstRequests := 3
                  unprocessedPagesQueue := { buf := [2, 3, 4, 5], cap := 5 }
                  processedPages := 1
                  totalPages := 5
                  storage := { Cards := demoRecords 1 } }
           wg := 0
           fetchLog := [] }
    running := []
    loc := .loopTop }

/-- State of the example scenario when `Run` has returned. -/
def demoFinal : Sys :=
  { w := { t := { maxBurstRequests := 3
                  unprocessedPagesQueue := { buf := [], cap := 5 }
                  processedPages := 5
                  totalPages := 5
                  storage := { Cards := demoRecords 1 ++ demoRecords 2 ++ demoRecords 4 ++
                                 demoRecords 5 ++ demoRecords 3 } }
           wg := 0
           fetchLog := [2, 3, 4, 5, 3] }
    running := []
    loc := .returned }

/-- State of the example scenario in the first burst, pages 2 and 3 launched. -/
def demoBurst : Sys :=
  { w := { t := { maxBurstRequests := 3
                  unprocessedPagesQueue := { buf := [4, 5], cap := 5 }
                  processedPages := 1
                  totalPages := 5
                  storage := { Cards := demoRecords 1 } }
           wg := 2
           fetchLog := [] }
    running := [2, 3]
    loc := .burst 2 3 }

/-- A client whose page 2, the last one, fails at every attempt. -/
def stuckClient : Client where
  Fetch := fun _ _ => .err "could not fetch data"
  FetchWithMetaData := (demoRecords 1, fun key => if key = "totalPages" then 2 else 100, none)

/-- The meta data returned by `stuckClient`. -/
def stuckMeta : String → Int := fun key => if key = "totalPages" then 2 else 100

/-- State of `stuckClient` after `gatherMetaData`. -/
def stuckStart : Sys :=
  { w := { t := { maxBurstRequests := 3
                  unprocessedPagesQueue := { buf := [2], cap := 2 }
                  processedPages := 1
                  totalPages := 2
                  storage := { Cards := demoRecords 1 } }
           wg := 0
           fetchLog := [] }
    running := []
    loc := .loopTop }

/-- A schedule of `stuckClient`: one burst launches page 2, which fails. -/
def stuckActs : List Action := [.run, .run, .run, .run, .finish 2]

/-- State of `stuckClient` once page 2 has failed and has been put back. -/
def stuckState : Sys :=
  { w := { t := { maxBurstRequests := 3
                  unprocessedPagesQueue := { buf := [2], cap := 2 }
                  processedPages := 1
                  totalPages := 2
                  storage := { Cards := demoRecords 1 } }
           wg := 0
           fetchLog := [2] }
    running := []
    loc := .loopTop }

/-- A client whose bootstrap call succeeds and announces `2 ^ 45` pages. -/
def hugeClient : Client where
  Fetch := fun p _ => .ok (demoRecords p)
  FetchWithMetaData := ([], fun key => if key = "totalPages" then 2 ^ 45 else 100, none)

/-- The meta data returned by `hugeClient`. -/
def hugeMeta : String → Int := fun key => if key = "totalPages" then 2 ^ 45 else 100

/-- A client whose bootstrap call fails. -/
def deadClient : Client where
  Fetch := fun p _ => .ok (demoRecords p)
  FetchWithMetaData := ([], fun _ => 0, some "could not fetch data")

/-! ## Lemmas on the bootstrap -/

theorem pagesFrom2_length (N : Int) : (pagesFrom2 N).length = (N - 1).toNat := by
  simp [pagesFrom2]

theorem wrapInt_of_int (x : Int) (h0 : 0 ≤ x) (h1 : x < 2 ^ 63) : wrapInt x = x := by
  unfold wrapInt
  rw [Int.emod_eq_of_lt (by omega) (by omega)]
  omega

/-- More iterations than the queue has room for are never used. -/
theorem fillQueue_fuel (fuel : Nat) : ∀ (N i : Int) (t : throttler),
    t.unprocessedPagesQueue.cap - t.unprocessedPagesQueue.buf.length < fuel →
    fillQueue (fuel + 1) N i t = fillQueue fuel N i t := by
  induction fuel with
  | zero => intro N i t h; omega
  | succ fuel ih =>
    intro N i t h
    conv_lhs => rw [fillQueue]
    conv_rhs => rw [fillQueue]
    by_cases hle : i ≤ N
    · simp only [if_pos hle]
      by_cases hlt : t.unprocessedPagesQueue.buf.length < t.unprocessedPagesQueue.cap
      · simp only [Chan.send, if_pos hlt]
        exact ih N _ _ (by simp only [List.length_append, List.length_singleton]; omega)
      · simp only [Chan.send, if_neg hlt]
    · simp only [if_neg hle]

theorem fillQueue_done (k : Nat) : ∀ (fuel j : Nat) (N : Int) (t : throttler),
    N = (j : Int) + (k : Int) - 1 → (j : Int) + (k : Int) < 2 ^ 63 → k < fuel →
    t.unprocessedPagesQueue.buf.length + k ≤ t.unprocessedPagesQueue.cap →
    fillQueue fuel N (j : Int) t = .done { t with
      unprocessedPagesQueue :=
        { buf := t.unprocessedPagesQueue.buf ++ (List.range' j k).map Int.ofNat
          cap := t.unprocessedPagesQueue.cap } } := by
  induction k with
  | zero =>
    intro fuel j N t hN _ hfuel _
    obtain ⟨f, rfl⟩ : ∃ f, fuel = f + 1 := ⟨fuel - 1, by omega⟩
    have hle : ¬ (j : Int) ≤ N := by omega
    simp [fillQueue, hle]
  | succ k ih =>
    intro fuel j N t hN hj hfuel h
    obtain ⟨f, rfl⟩ : ∃ f, fuel = f + 1 := ⟨fuel - 1, by omega⟩
    have hle : (j : Int) ≤ N := by omega
    have hlt : t.unprocessedPagesQueue.buf.length < t.unprocessedPagesQueue.cap := by omega
    have hs : t.unprocessedPagesQueue.send (j : Int) =
        some { t.unprocessedPagesQueue with buf := t.unprocessedPagesQueue.buf ++ [(j : Int)] } := by
      simp [Chan.send, hlt]
    have hw : wrapInt ((j : Int) + 1) = ((j + 1 : Nat) : Int) := by
      rw [wrapInt_of_int _ (by omega) (by omega)]
      simp
    simp only [fillQueue, hle, if_true, hs, hw]
    have := ih f (j + 1) N { t with unprocessedPagesQueue :=
      { t.unprocessedPagesQueue with buf := t.unprocessedPagesQueue.buf ++ [(j : Int)] } }
      (by push_cast; push_cast at hN; omega) (by push_cast; push_cast at hj; omega) (by omega)
      (by simp; omega)
    rw [this]
    simp [List.range'_succ]

theorem uint64_of_int (N : Int) (h0 : 0 ≤ N) (h1 : N < 2 ^ 63) : uint64 N = N.toNat := by
  unfold uint64
  rw [Int.emod_eq_of_lt h0 (by omega)]

theorem make_ok (N : Int) (h0 : 0 ≤ N) (h3 : intSize * N ≤ maxAlloc - hchanSize) :
    Chan.make N = some { buf := [], cap := N.toNat } := by
  unfold Chan.make
  have h : ¬ (N < 0 ∨ 2 ^ 64 ≤ intSize * N ∨ maxAlloc - hchanSize < intSize * N) := by
    simp only [intSize, maxAlloc, hchanSize] at h3 ⊢
    omega
  rw [if_neg h]

theorem make_panics (N : Int) (h3 : ¬ intSize * N ≤ maxAlloc - hchanSize) :
    Chan.make N = none := by
  unfold Chan.make
  rw [if_pos (Or.inr (Or.inr (not_le.1 h3)))]

theorem gatherMetaData_panics (c : Client) (t : throttler) (cards : List Card)
    (md : String → Int) (N : Int) (hf : c.FetchWithMetaData = (cards, md, none))
    (hN : md "totalPages" = N) (h3 : ¬ intSize * N ≤ maxAlloc - hchanSize) :
    gatherMetaData c t = .panicking t := by
  unfold gatherMetaData
  rw [hf]
  simp only [Option.isSome_none, hN, make_panics N h3]
  rfl

theorem gatherMetaData_ok (c : Client) (t : throttler) (cards : List Card) (md : String → Int)
    (N : Int) (hf : c.FetchWithMetaData = (cards, md, none)) (hN : md "totalPages" = N)
    (h1 : 1 ≤ N) (h3 : intSize * N ≤ maxAlloc - hchanSize) :
    gatherMetaData c t = .done
      { maxBurstRequests := t.maxBurstRequests
        unprocessedPagesQueue := { buf := pagesFrom2 N, cap := N.toNat }
        processedPages := 1
        totalPages := N.toNat
        storage := { Cards := t.storage.Cards ++ cards } } := by
  have h2 : N < 2 ^ 45 := by
    simp only [intSize, maxAlloc, hchanSize] at h3
    omega
  unfold gatherMetaData
  rw [hf]
  simp only [Option.isSome_none, hN, make_ok N (by omega) h3]
  have := fillQueue_done (N - 1).toNat (N.toNat + 1) 2 N
    { t with
      unprocessedPagesQueue := { buf := [], cap := N.toNat }
      processedPages := 1
      totalPages := uint64 N
      storage := { Cards := t.storage.Cards ++ cards } }
    (by push_cast; omega) (by push_cast; omega) (by omega) (by simp)
  simp only [Nat.cast_ofNat] at this
  simp only [Bool.false_eq_true, if_false]
  rw [this]
  simp [pagesFrom2, uint64_of_int N (by omega) (by omega)]

theorem start_ok (c : Client) (st : CardStorage) (cards : List Card) (md : String → Int)
    (N : Int) (hf : c.FetchWithMetaData = (cards, md, none)) (hN : md "totalPages" = N)
    (h1 : 1 ≤ N) (h3 : intSize * N ≤ maxAlloc - hchanSize) :
    start c st = .done
      { w := { t := { maxBurstRequests := 3
                      unprocessedPagesQueue := { buf := pagesFrom2 N, cap := N.toNat }
                      processedPages := 1
                      totalPages := N.toNat
                      storage := { Cards := st.Cards ++ cards } }
               wg := 0
               fetchLog := [] }
        running := []
        loc := .loopTop } := by
  unfold start
  rw [gatherMetaData_ok c (NewThrottler st) cards md N hf hN h1 h3]
  simp [NewThrottler, maxConcurrencyPerSecond]

theorem inv_start (c : Client) (st : CardStorage) (cards : List Card) (md : String → Int)
    (N : Int) (hf : c.FetchWithMetaData = (cards, md, none)) (hN : md "totalPages" = N)
    (h1 : 1 ≤ N) (s0 : Sys) (hs : start c st = .done s0) :
    Inv c st N s0 ∧ intSize * N ≤ maxAlloc - hchanSize := by
  by_cases h3 : intSize * N ≤ maxAlloc - hchanSize
  · refine ⟨?_, h3⟩
    rw [start_ok c st cards md N hf hN h1 h3] at hs
    injection hs with hs
    subst hs
    refine ⟨rfl, rfl, rfl, by simp, by simp, by simp, ⟨[], by simp, by simp, by simp [hf], by simp⟩,
      ?_, ?_⟩
    · intro i n h; simp at h
    · intro h; simp at h
  · exfalso
    unfold start at hs
    rw [gatherMetaData_panics c (NewThrottler st) cards md N hf hN h3] at hs
    simp at hs

/-! ## Lemmas on `processPage` -/

theorem processPage_ok (cards : List Card) (w : World) (page : Int) (hwg : 0 < w.wg) :
    processPage (.ok cards) w page = .done
      { t := { w.t with
                storage := { Cards := w.t.storage.Cards ++ cards }
                processedPages := (w.t.processedPages + 1) % 2 ^ 64 }
        wg := w.wg - 1
        fetchLog := w.fetchLog ++ [page] } := by
  have h : ¬ w.wg - 1 < 0 := by omega
  simp [processPage, processPageBody, deferWgDone, wgDone, deferRecover, h]

theorem processPage_err (msg : String) (w : World) (page : Int) (hwg : 0 < w.wg)
    (hroom : w.t.unprocessedPagesQueue.buf.length < w.t.unprocessedPagesQueue.cap) :
    processPage (.err msg) w page = .done
      { t := { w.t with
                unprocessedPagesQueue :=
                  { buf := w.t.unprocessedPagesQueue.buf ++ [page]
                    cap := w.t.unprocessedPagesQueue.cap } }
        wg := w.wg - 1
        fetchLog := w.fetchLog ++ [page] } := by
  have h : ¬ w.wg - 1 < 0 := by omega
  simp [processPage, processPageBody, deferWgDone, wgDone, deferRecover, h, Chan.send, hroom]

theorem processPage_fault (w : World) (page : Int) (hwg : 0 < w.wg)
    (hroom : w.t.unprocessedPagesQueue.buf.length < w.t.unprocessedPagesQueue.cap) :
    processPage .fault w page = .done
      { t := { w.t with
                unprocessedPagesQueue :=
                  { buf := w.t.unprocessedPagesQueue.buf ++ [page]
                    cap := w.t.unprocessedPagesQueue.cap } }
        wg := w.wg - 1
        fetchLog := w.fetchLog ++ [page] } := by
  have h : ¬ w.wg - 1 < 0 := by omega
  simp [processPage, processPageBody, deferWgDone, wgDone, deferRecover, h, Chan.send, hroom]

/-- No panic leaves `processPage`, whatever the state. -/
theorem processPage_not_panicking (fetch : FetchResult) (w w1 : World) (page : Int) :
    processPage fetch w page ≠ .panicking w1 := by
  unfold processPage
  generalize deferWgDone (processPageBody fetch w page) = e
  cases e <;> simp [deferRecover]
  split <;> simp

/-! ## The invariant is preserved -/

theorem Inv.count {c : Client} {st : CardStorage} {N : Int} {s : Sys} (h : Inv c st N s) :
    s.w.t.processedPages + s.w.t.unprocessedPagesQueue.buf.length + s.running.length
      = 1 + (N - 1).toNat := by
  obtain ⟨done, hp, hproc, -, -⟩ := h.pages
  have hl := hp.length_eq
  rw [pagesFrom2_length] at hl
  simp only [List.length_append, List.length_map] at hl
  omega

theorem inv_stepRun {c : Client} {st : CardStorage} {N : Int} {s s1 : Sys}
    (h : Inv c st N s) (hs : stepRun s = some s1) : Inv c st N s1 := by
  unfold stepRun at hs
  split at hs
  · simp at hs
  · -- loopTop
    rename_i hloc
    split at hs
    · rename_i hno
      injection hs with hs; subst hs
      refine ⟨h.total, h.maxBurst, h.cap, h.wg, by simp, by simp, h.pages, ?_, ?_⟩
      · intro i n hh; simp at hh
      · intro _; simpa [noMorePageToProcess] using hno
    · injection hs with hs; subst hs
      refine ⟨h.total, h.maxBurst, h.cap, h.wg, by simp, by simp, h.pages, ?_, ?_⟩
      · intro i n hh; simp at hh
      · intro hh; simp at hh
  · -- ticking
    injection hs with hs; subst hs
    · refine ⟨h.total, h.maxBurst, h.cap, h.wg, by simp, by simp, h.pages, ?_, ?_⟩
      · intro i n hh
        simp only [Loc.burst.injEq] at hh
        obtain ⟨hi, hn⟩ := hh
        subst hi; subst hn
        have hmb := h.maxBurst
        unfold burstRequests
        simp only [hmb, Chan.len]
        split <;> omega
      · intro hh; simp at hh
  · -- burst i n
    rename_i i n hloc
    obtain ⟨hi0, hin, hn3, hq⟩ := h.burst i n hloc
    split at hs
    · rename_i hlt
      split at hs
      · simp at hs
      · rename_i page q hrecv
        injection hs with hs; subst hs
        unfold Chan.recv at hrecv
        split at hrecv
        · simp at hrecv
        · rename_i v rest hbuf
          simp only [Option.some.injEq, Prod.mk.injEq] at hrecv
          obtain ⟨hv, hq2⟩ := hrecv
          subst hv; subst hq2
          refine ⟨h.total, h.maxBurst, h.cap, ?_, by simp, by simp, ?_, ?_, ?_⟩
          · simp [h.wg]
          · obtain ⟨done, hp, hproc, hcards, hall⟩ := h.pages
            refine ⟨done, ?_, hproc, hcards, hall⟩
            rw [hbuf] at hp
            refine List.Perm.trans ?_ hp
            simp only [List.append_assoc, List.cons_append, List.singleton_append, List.nil_append]
            rw [← List.append_assoc, ← List.append_assoc]
            exact List.perm_middle
          · intro i2 n2 hh
            simp only [Loc.burst.injEq] at hh
            obtain ⟨hi, hn⟩ := hh
            subst hi; subst hn
            simp only [Chan.len, hbuf, List.length_cons] at hq ⊢
            push_cast at hq
            omega
          · intro hh; simp at hh
    · injection hs with hs; subst hs
      refine ⟨h.total, h.maxBurst, h.cap, h.wg, by simp, by simp, h.pages, ?_, ?_⟩
      · intro i n hh; simp at hh
      · intro hh; simp at hh
  · -- waiting
    rename_i hloc
    split at hs
    · injection hs with hs; subst hs
      refine ⟨h.total, h.maxBurst, h.cap, h.wg, by simp, by simp, h.pages, ?_, ?_⟩
      · intro i n hh; simp at hh
      · intro _; exact h.finished (Or.inl hloc)
    · simp at hs
  · simp at hs
  · simp at hs

theorem Inv.wg_pos {c : Client} {st : CardStorage} {N : Int} {s : Sys} (h : Inv c st N s)
    {page : Int} (hm : page ∈ s.running) : 0 < s.w.wg := by
  rw [h.wg]
  have := List.length_pos_of_mem hm
  omega

theorem Inv.room {c : Client} {st : CardStorage} {N : Int} {s : Sys} (h : Inv c st N s)
    {page : Int} (hm : page ∈ s.running) :
    s.w.t.unprocessedPagesQueue.buf.length < s.w.t.unprocessedPagesQueue.cap := by
  have hc := h.count
  have := List.length_pos_of_mem hm
  obtain ⟨done, -, hproc, -, -⟩ := h.pages
  rw [h.cap]
  omega

theorem Inv.requeue {c : Client} {st : CardStorage} {N : Int} {s : Sys} (h : Inv c st N s)
    {page : Int} (hm : page ∈ s.running) :
    Inv c st N
      { s with
        w := { t := { s.w.t with
                      unprocessedPagesQueue :=
                        { buf := s.w.t.unprocessedPagesQueue.buf ++ [page]
                          cap := s.w.t.unprocessedPagesQueue.cap } }
               wg := s.w.wg - 1
               fetchLog := s.w.fetchLog ++ [page] }
        running := s.running.erase page } := by
  have hlen := List.length_pos_of_mem hm
  refine ⟨h.total, h.maxBurst, h.cap, ?_, h.alive, h.started, ?_, ?_, ?_⟩
  · simp only [h.wg, List.length_erase_of_mem hm]
    omega
  · obtain ⟨done, hp, hproc, hcards, hall⟩ := h.pages
    refine ⟨done, ?_, hproc, hcards, hall⟩
    refine List.Perm.trans ?_ hp
    simp only [List.append_assoc]
    refine List.Perm.append_left _ ?_
    rw [← List.append_assoc]
    refine List.Perm.append_right _ ?_
    exact (List.perm_cons_erase hm).symm
  · intro i n hh
    obtain ⟨a, b, c1, d⟩ := h.burst i n hh
    refine ⟨a, b, c1, ?_⟩
    simp only [Chan.len, List.length_append, List.length_singleton] at d ⊢
    push_cast
    omega
  · intro hh
    exfalso
    have hfin := h.finished hh
    have hc := h.count
    obtain ⟨done, -, hproc, -, -⟩ := h.pages
    rw [h.total] at hfin
    omega

theorem Inv.processed_lt {c : Client} {st : CardStorage} {N : Int} {s : Sys} (h : Inv c st N s)
    {page : Int} (hm : page ∈ s.running) : s.w.t.processedPages < s.w.t.totalPages := by
  have hc := h.count
  have := List.length_pos_of_mem hm
  obtain ⟨done, -, hproc, -, -⟩ := h.pages
  rw [h.total]
  omega

theorem Inv.success {c : Client} {st : CardStorage} {N : Int} {s : Sys} (h : Inv c st N s)
    (h2 : N < 2 ^ 63) {page : Int} (hm : page ∈ s.running) (cards : List Card) (k : Nat)
    (hk : c.Fetch page k = .ok cards) :
    Inv c st N
      { s with
        w := { t := { s.w.t with
                      storage := { Cards := s.w.t.storage.Cards ++ cards }
                      processedPages := (s.w.t.processedPages + 1) % 2 ^ 64 }
               wg := s.w.wg - 1
               fetchLog := s.w.fetchLog ++ [page] }
        running := s.running.erase page } := by
  have hlen := List.length_pos_of_mem hm
  have hlt := h.processed_lt hm
  have htot := h.total
  have hmod : (s.w.t.processedPages + 1) % 2 ^ 64 = s.w.t.processedPages + 1 := by
    apply Nat.mod_eq_of_lt
    omega
  refine ⟨h.total, h.maxBurst, h.cap, ?_, h.alive, h.started, ?_, ?_, ?_⟩
  · simp only [h.wg, List.length_erase_of_mem hm]
    omega
  · obtain ⟨done, hp, hproc, hcards, hall⟩ := h.pages
    refine ⟨done ++ [(page, cards)], ?_, ?_, ?_, ?_⟩
    · refine List.Perm.trans ?_ hp
      simp only [List.append_assoc, List.map_append, List.map_cons, List.map_nil]
      refine List.Perm.append_left _ ?_
      rw [← List.append_assoc]
      refine List.Perm.trans List.perm_append_comm ?_
      simp only [List.singleton_append]
      rw [← List.cons_append]
      exact List.Perm.append_right _ (List.perm_cons_erase hm).symm
    · simp only [hmod, List.length_append, List.length_singleton]
      omega
    · simp only [List.map_append, List.map_cons, List.map_nil, List.flatten_append,
        List.flatten_cons, List.flatten_nil, List.append_nil]
      rw [← List.append_assoc]
      exact List.Perm.append_right _ hcards
    · intro x hx
      rcases List.mem_append.1 hx with hx | hx
      · exact hall x hx
      · simp only [List.mem_singleton] at hx
        subst hx
        exact ⟨k, hk⟩
  · intro i n hh
    exact h.burst i n hh
  · intro hh
    exfalso
    have hfin := h.finished hh
    omega

theorem inv_stepFinish {c : Client} {st : CardStorage} {N : Int} {s s1 : Sys} {page : Int}
    (h : Inv c st N s) (h2 : N < 2 ^ 63) (hs : stepFinish c s page = some s1) :
    Inv c st N s1 := by
  unfold stepFinish at hs
  split at hs
  · rename_i hcond
    obtain ⟨hm, -⟩ := hcond
    have hwg := h.wg_pos hm
    have hroom := h.room hm
    cases hk : c.Fetch page (List.count page s.w.fetchLog) with
    | ok cards =>
      rw [hk, processPage_ok cards s.w page hwg] at hs
      injection hs with hs; subst hs
      exact h.success h2 hm cards _ hk
    | err msg =>
      rw [hk, processPage_err msg s.w page hwg hroom] at hs
      injection hs with hs; subst hs
      exact h.requeue hm
    | fault =>
      rw [hk, processPage_fault s.w page hwg hroom] at hs
      injection hs with hs; subst hs
      exact h.requeue hm
  · simp at hs

theorem inv_step {c : Client} {st : CardStorage} {N : Int} {s s1 : Sys} {a : Action}
    (h : Inv c st N s) (h2 : N < 2 ^ 63) (hs : step c s a = some s1) : Inv c st N s1 := by
  cases a with
  | run => exact inv_stepRun h hs
  | finish page => exact inv_stepFinish h h2 hs

theorem inv_steps {c : Client} {st : CardStorage} {N : Int} (h2 : N < 2 ^ 63)
    (acts : List Action) : ∀ {s s1 : Sys}, Inv c st N s → steps c s acts = some s1 →
    Inv c st N s1 := by
  induction acts with
  | nil =>
    intro s s1 h hs
    simp only [steps, Option.some.injEq] at hs
    subst hs
    exact h
  | cons a as ih =>
    intro s s1 h hs
    simp only [steps] at hs
    cases hstep : step c s a with
    | none => rw [hstep] at hs; simp at hs
    | some s2 =>
      rw [hstep] at hs
      exact ih (inv_step h h2 hstep) hs

theorem inv_reachable {c : Client} {st : CardStorage} {cards : List Card} {md : String → Int}
    {N : Int} (hf : c.FetchWithMetaData = (cards, md, none)) (hN : md "totalPages" = N)
    (h1 : 1 ≤ N) (h2 : N < 2 ^ 63) {s : Sys} (hr : Reachable c st s) : Inv c st N s := by
  obtain ⟨s0, acts, hstart, hsteps⟩ := hr
  exact inv_steps h2 acts (inv_start c st cards md N hf hN h1 s0 hstart).1 hsteps

/-! ## Lemmas on the burst loop -/

theorem fillQueue_maxBurst (fuel : Nat) : ∀ (N i : Int) (t t1 : throttler),
    fillQueue fuel N i t = .done t1 → t1.maxBurstRequests = t.maxBurstRequests := by
  induction fuel with
  | zero =>
    intro N i t t1 h
    simp [fillQueue] at h
  | succ fuel ih =>
    intro N i t t1 h
    simp only [fillQueue] at h
    split at h
    · split at h
      · simp at h
      · have := ih _ _ _ _ h
        simpa using this
    · simp only [Exec.done.injEq] at h
      rw [← h]

theorem start_maxBurst {c : Client} {st : CardStorage} {s0 : Sys} (h : start c st = .done s0) :
    s0.w.t.maxBurstRequests = 3 ∧ s0.loc = .loopTop := by
  unfold start at h
  split at h
  · rename_i t ht
    simp only [Exec.done.injEq] at h
    subst h
    refine ⟨?_, rfl⟩
    unfold gatherMetaData at ht
    split at ht
    split at ht
    · simp at ht
    · split at ht
      · simp at ht
      · exact fillQueue_maxBurst _ _ _ _ _ ht
  all_goals simp at h

theorem processPage_queue {fetch : FetchResult} {w w1 : World} {page : Int}
    (h : processPage fetch w page = .done w1) :
    w1.t.maxBurstRequests = w.t.maxBurstRequests ∧
      w.t.unprocessedPagesQueue.len ≤ w1.t.unprocessedPagesQueue.len := by
  unfold Chan.len
  by_cases hwg : w.wg - 1 < 0 <;>
    by_cases hroom : w.t.unprocessedPagesQueue.buf.length < w.t.unprocessedPagesQueue.cap <;>
    by_cases hroom2 :
      w.t.unprocessedPagesQueue.buf.length + 1 < w.t.unprocessedPagesQueue.cap <;>
    cases fetch <;>
    simp [processPage, processPageBody, deferWgDone, wgDone, deferRecover, Chan.send, hwg,
      hroom, hroom2] at h <;>
    subst h <;> simp

theorem burstInv_stepRun {s s1 : Sys} (h : BurstInv s) (hs : stepRun s = some s1) :
    BurstInv s1 := by
  unfold stepRun at hs
  split at hs
  · simp at hs
  · split at hs
    · injection hs with hs; subst hs
      exact ⟨h.maxBurst, by intro i n hh; simp at hh⟩
    · injection hs with hs; subst hs
      exact ⟨h.maxBurst, by intro i n hh; simp at hh⟩
  · injection hs with hs; subst hs
    · refine ⟨h.maxBurst, ?_⟩
      intro i n hh
      simp only [Loc.burst.injEq] at hh
      obtain ⟨hi, hn⟩ := hh
      subst hi; subst hn
      have hmb := h.maxBurst
      unfold burstRequests
      simp only [hmb, Chan.len]
      split <;> omega
  · rename_i i n hloc
    obtain ⟨hi0, hin, hn3, hq⟩ := h.burst i n hloc
    split at hs
    · split at hs
      · simp at hs
      · rename_i page q hrecv
        injection hs with hs; subst hs
        unfold Chan.recv at hrecv
        split at hrecv
        · simp at hrecv
        · rename_i v rest hbuf
          simp only [Option.some.injEq, Prod.mk.injEq] at hrecv
          obtain ⟨hv, hq2⟩ := hrecv
          subst hv; subst hq2
          refine ⟨h.maxBurst, ?_⟩
          intro i2 n2 hh
          simp only [Loc.burst.injEq] at hh
          obtain ⟨hi, hn⟩ := hh
          subst hi; subst hn
          simp only [Chan.len, hbuf, List.length_cons] at hq ⊢
          push_cast at hq
          omega
    · injection hs with hs; subst hs
      exact ⟨h.maxBurst, by intro i n hh; simp at hh⟩
  · split at hs
    · injection hs with hs; subst hs
      exact ⟨h.maxBurst, by intro i n hh; simp at hh⟩
    · simp at hs
  · simp at hs
  · simp at hs

theorem burstInv_stepFinish {c : Client} {s s1 : Sys} {page : Int} (h : BurstInv s)
    (hs : stepFinish c s page = some s1) : BurstInv s1 := by
  unfold stepFinish at hs
  split at hs
  · split at hs
    · rename_i w1 hp
      injection hs with hs; subst hs
      obtain ⟨hm, hl⟩ := processPage_queue hp
      refine ⟨by simp [hm, h.maxBurst], ?_⟩
      intro i n hh
      obtain ⟨a, b, c1, d⟩ := h.burst i n hh
      exact ⟨a, b, c1, by simp only; omega⟩
    · rename_i w1 hp
      exact absurd hp (processPage_not_panicking _ _ _ _)
    · simp at hs
    · simp at hs
  · simp at hs

theorem burstInv_reachable {c : Client} {st : CardStorage} {s : Sys} (hr : Reachable c st s) :
    BurstInv s := by
  obtain ⟨s0, acts, hstart, hsteps⟩ := hr
  have h0 : BurstInv s0 := by
    obtain ⟨hm, hl⟩ := start_maxBurst hstart
    exact ⟨hm, by intro i n hh; rw [hl] at hh; simp at hh⟩
  clear hstart
  induction acts generalizing s0 with
  | nil =>
    simp only [steps, Option.some.injEq] at hsteps
    subst hsteps
    exact h0
  | cons a as ih =>
    simp only [steps] at hsteps
    cases hstep : step c s0 a with
    | none => rw [hstep] at hsteps; simp at hsteps
    | some s2 =>
      rw [hstep] at hsteps
      refine ih s2 hsteps ?_
      cases a with
      | run => exact burstInv_stepRun h0 hstep
      | finish page => exact burstInv_stepFinish h0 hstep

/-! ## Lemmas on the sort -/

theorem sinkLeft_perm {α : Type} (less : α → α → Bool) (x : α) :
    ∀ l : List α, (sinkLeft less x l).Perm (x :: l) := by
  intro l
  induction l with
  | nil => simp [sinkLeft]
  | cons y ys ih =>
    simp only [sinkLeft]
    split
    · exact (List.Perm.cons y ih).trans (List.Perm.swap x y ys)
    · exact List.Perm.refl _

theorem sinkLeft_sorted (x : Card) : ∀ l : List Card,
    l.Pairwise (fun a b => b.Set ≤ a.Set) →
    (sinkLeft (fun a b => decide (a.Set < b.Set)) x l).Pairwise (fun a b => b.Set ≤ a.Set) := by
  intro l
  induction l with
  | nil => intro _; simp [sinkLeft]
  | cons y ys ih =>
    intro h
    rw [List.pairwise_cons] at h
    obtain ⟨hy, hys⟩ := h
    simp only [sinkLeft]
    split
    · rename_i hlt
      simp only [decide_eq_true_eq] at hlt
      rw [List.pairwise_cons]
      refine ⟨?_, ih hys⟩
      intro z hz
      have hz2 := (sinkLeft_perm _ x ys).subset hz
      rcases List.mem_cons.1 hz2 with hz3 | hz3
      · subst hz3; exact le_of_lt hlt
      · exact hy z hz3
    · rename_i hlt
      simp only [decide_eq_true_eq, not_lt] at hlt
      rw [List.pairwise_cons]
      refine ⟨?_, List.pairwise_cons.2 ⟨hy, hys⟩⟩
      intro z hz
      rcases List.mem_cons.1 hz with hz3 | hz3
      · subst hz3; exact hlt
      · exact le_trans (hy z hz3) hlt

theorem foldl_sinkLeft_perm {α : Type} (less : α → α → Bool) : ∀ (l acc : List α),
    (l.foldl (fun rev x => sinkLeft less x rev) acc).Perm (l ++ acc) := by
  intro l
  induction l with
  | nil => intro acc; simp
  | cons x xs ih =>
    intro acc
    simp only [List.foldl_cons]
    refine (ih _).trans ?_
    refine (List.Perm.append_left xs (sinkLeft_perm less x acc)).trans ?_
    simp only [List.cons_append]
    exact List.perm_middle

theorem foldl_sinkLeft_sorted : ∀ (l acc : List Card),
    acc.Pairwise (fun a b => b.Set ≤ a.Set) →
    (l.foldl (fun rev x => sinkLeft (fun a b => decide (a.Set < b.Set)) x rev) acc).Pairwise
      (fun a b => b.Set ≤ a.Set) := by
  intro l
  induction l with
  | nil => intro acc h; simpa using h
  | cons x xs ih =>
    intro acc h
    simp only [List.foldl_cons]
    exact ih _ (sinkLeft_sorted x acc h)

/-! ## Lemmas on the page list -/

theorem mem_pagesFrom2 (N p : Int) : p ∈ pagesFrom2 N ↔ 2 ≤ p ∧ p ≤ N := by
  unfold pagesFrom2
  simp only [List.mem_map, List.mem_range'_1]
  constructor
  · rintro ⟨a, ⟨ha1, ha2⟩, rfl⟩
    simp only [Int.ofNat_eq_coe]
    omega
  · rintro ⟨h2, hN⟩
    refine ⟨p.toNat, ⟨by omega, by omega⟩, ?_⟩
    simp only [Int.ofNat_eq_coe]
    omega

theorem pagesFrom2_sorted (N : Int) : (pagesFrom2 N).Pairwise (fun a b => a < b) := by
  unfold pagesFrom2
  rw [List.pairwise_map]
  refine List.Pairwise.imp ?_ (List.pairwise_lt_range' 2 (N - 1).toNat)
  intro a b hab
  simp only [Int.ofNat_eq_coe]
  omega

theorem pagesFrom2_nodup (N : Int) : (pagesFrom2 N).Nodup :=
  (pagesFrom2_sorted N).imp (fun h => ne_of_lt h)

/-! ## The claims -/

/-- C5 (bootstrap postcondition, amended): when `FetchWithMetaData` succeeds
with `cards` and `totalPages = N`, `1 ≤ N`, and `N` is a size that `make`
accepts for the queue (`8 * N ≤ maxAlloc - hchanSize`), `gatherMetaData`
returns normally with `processedPages = 1`, `totalPages = N`, the storage
equal to its previous contents followed by `cards`, and the queue holding
exactly the integers `2, ..., N`, each once, in ascending order (empty when
`N = 1`). -/
theorem gatherMetaData_postcondition (c : Client) (t : throttler) (cards : List Card)
    (md : String → Int) (N : Int) (hf : c.FetchWithMetaData = (cards, md, none))
    (hN : md "totalPages" = N) (h1 : 1 ≤ N)
    (h3 : intSize * N ≤ maxAlloc - hchanSize) :
    ∃ t1, gatherMetaData c t = .done t1 ∧
      t1.processedPages = 1 ∧
      (t1.totalPages : Int) = N ∧
      t1.storage.Cards = t.storage.Cards ++ cards ∧
      t1.unprocessedPagesQueue.buf = pagesFrom2 N ∧
      (∀ p : Int, p ∈ t1.unprocessedPagesQueue.buf ↔ 2 ≤ p ∧ p ≤ N) ∧
      t1.unprocessedPagesQueue.buf.Nodup ∧
      t1.unprocessedPagesQueue.buf.Pairwise (fun a b => a < b) ∧
      (N = 1 → t1.unprocessedPagesQueue.buf = []) := by
  refine ⟨_, gatherMetaData_ok c t cards md N hf hN h1 h3, rfl, ?_, rfl, rfl, ?_, ?_, ?_, ?_⟩
  · simp only
    omega
  · exact mem_pagesFrom2 N
  · exact pagesFrom2_nodup N
  · exact pagesFrom2_sorted N
  · intro h
    subst h
    rfl

/-- The bootstrap of the example scenario: five pages, the queue holds 2 to 5. -/
theorem gatherMetaData_postcondition_witness :
    demoClient.FetchWithMetaData = (demoRecords 1, demoMeta, none) ∧
    demoMeta "totalPages" = 5 ∧ intSize * 5 ≤ maxAlloc - hchanSize ∧
    ∃ t1, gatherMetaData demoClient (NewThrottler ⟨[]⟩) = .done t1 ∧
      t1.processedPages = 1 ∧
      (t1.totalPages : Int) = 5 ∧
      t1.storage.Cards = (NewThrottler ⟨[]⟩).storage.Cards ++ demoRecords 1 ∧
      t1.unprocessedPagesQueue.buf = pagesFrom2 5 ∧
      (∀ p : Int, p ∈ t1.unprocessedPagesQueue.buf ↔ 2 ≤ p ∧ p ≤ 5) ∧
      t1.unprocessedPagesQueue.buf.Nodup ∧
      t1.unprocessedPagesQueue.buf.Pairwise (fun a b => a < b) ∧
      ((5 : Int) = 1 → t1.unprocessedPagesQueue.buf = []) :=
  ⟨rfl, rfl, by decide,
   gatherMetaData_postcondition demoClient (NewThrottler ⟨[]⟩) (demoRecords 1) demoMeta 5
    rfl rfl (by decide) (by decide)⟩

/-- C5 (the claim as written fails): with a successful bootstrap that
announces `N = 2 ^ 45` pages, `1 ≤ N` a Go `int`, `make` panics on the size of
the queue, so `gatherMetaData` does not return: the panic leaves it with the
throttler as it was, `processedPages` not set to 1 and `totalPages` not set
to `N`. -/
theorem gatherMetaData_panics_on_huge_total :
    hugeClient.FetchWithMetaData = ([], hugeMeta, none) ∧
    hugeMeta "totalPages" = 2 ^ 45 ∧ (1 : Int) ≤ 2 ^ 45 ∧ (2 ^ 45 : Int) < 2 ^ 63 ∧
    gatherMetaData hugeClient (NewThrottler ⟨[]⟩) = .panicking (NewThrottler ⟨[]⟩) ∧
    (NewThrottler ⟨[]⟩).processedPages = 0 ∧ (NewThrottler ⟨[]⟩).totalPages = 0 ∧
    ¬ ∃ t1, gatherMetaData hugeClient (NewThrottler ⟨[]⟩) = .done t1 ∧
      t1.processedPages = 1 ∧ (t1.totalPages : Int) = 2 ^ 45 := by
  have hp : gatherMetaData hugeClient (NewThrottler ⟨[]⟩) = .panicking (NewThrottler ⟨[]⟩) :=
    gatherMetaData_panics hugeClient (NewThrottler ⟨[]⟩) [] hugeMeta (2 ^ 45) rfl rfl
      (by decide)
  refine ⟨rfl, rfl, by decide, by decide, hp, rfl, rfl, ?_⟩
  rintro ⟨t1, h, -⟩
  rw [hp] at h
  simp at h

/-- C4 (queue/counter consistency): in the state produced by `gatherMetaData`
and after every later step (launch of a page by `Run`, end of a `processPage`
task by success, error or recovered panic), `processedPages` plus the length
of the queue plus the number of launched, unfinished tasks equals
`totalPages`. -/
theorem queue_counter_consistency (c : Client) (st : CardStorage) (cards : List Card)
    (md : String → Int) (N : Int) (hf : c.FetchWithMetaData = (cards, md, none))
    (hN : md "totalPages" = N) (h1 : 1 ≤ N) (h2 : N < 2 ^ 63)
    (s : Sys) (hr : Reachable c st s) :
    (s.w.t.processedPages : Int) + s.w.t.unprocessedPagesQueue.len + (s.running.length : Int)
      = (s.w.t.totalPages : Int) := by
  have h := inv_reachable hf hN h1 h2 hr
  have hc := h.count
  have ht := h.total
  unfold Chan.len
  omega

/-- The example scenario inside its first burst: 1 + 2 + 2 = 5. -/
theorem queue_counter_consistency_witness :
    Reachable demoClient ⟨[]⟩ demoBurst ∧
    (demoBurst.w.t.processedPages : Int) + demoBurst.w.t.unprocessedPagesQueue.len
      + (demoBurst.running.length : Int) = (demoBurst.w.t.totalPages : Int) :=
  ⟨⟨demoStart, demoBurstActs, rfl, rfl⟩,
   queue_counter_consistency demoClient ⟨[]⟩ (demoRecords 1) demoMeta 5 rfl rfl (by decide)
     (by decide) demoBurst ⟨demoStart, demoBurstActs, rfl, rfl⟩⟩

/-- C1 (completeness of `Run`): for `totalPages = N ≥ 1` and every pattern of
failures of the page fetches, a state in which `Run` has returned has
`processedPages = totalPages` and no unfinished task, and in every reachable
state with these two properties the storage holds, as a multiset, its initial
cards, the cards of page 1 and the records of each page `2..N` exactly once. -/
theorem Run_completeness (c : Client) (st : CardStorage) (cards1 : List Card)
    (md : String → Int) (N : Int) (records : Int → List Card)
    (hf : c.FetchWithMetaData = (cards1, md, none)) (hN : md "totalPages" = N)
    (h1 : 1 ≤ N) (h2 : N < 2 ^ 63)
    (hrec : ∀ p k cs, c.Fetch p k = .ok cs → cs = records p)
    (s : Sys) (hr : Reachable c st s) :
    (s.loc = .returned → s.w.t.processedPages = s.w.t.totalPages ∧ s.running = []) ∧
    (s.w.t.processedPages = s.w.t.totalPages → s.running = [] →
      s.w.t.storage.Cards.Perm
        (st.Cards ++ cards1 ++ ((pagesFrom2 N).map records).flatten)) := by
  have h := inv_reachable hf hN h1 h2 hr
  have hc := h.count
  have ht := h.total
  constructor
  · intro hloc
    have hfin := h.finished (Or.inr hloc)
    refine ⟨hfin, ?_⟩
    apply List.eq_nil_of_length_eq_zero
    omega
  · intro hfin hrun
    obtain ⟨done, hp, hproc, hcards, hall⟩ := h.pages
    have hbuf : s.w.t.unprocessedPagesQueue.buf = [] := by
      apply List.eq_nil_of_length_eq_zero
      omega
    rw [hbuf, hrun] at hp
    simp only [List.append_nil, List.nil_append] at hp
    have hsnd : done.map Prod.snd = (done.map Prod.fst).map records := by
      rw [List.map_map]
      apply List.map_congr_left
      intro x hx
      obtain ⟨k, hk⟩ := hall x hx
      exact hrec _ _ _ hk
    rw [hf] at hcards
    rw [hsnd] at hcards
    refine hcards.trans (List.Perm.append_left _ ?_)
    exact List.Perm.flatten (List.Perm.map records hp)

/-- The example scenario run to the return of `Run`: page 3 was fetched twice
and contributed once. -/
theorem Run_completeness_witness :
    Reachable demoClient ⟨[]⟩ demoFinal ∧ demoFinal.loc = .returned ∧
    demoFinal.w.t.storage.Cards.Perm
      (([] : List Card) ++ demoRecords 1 ++ ((pagesFrom2 5).map demoRecords).flatten) :=
  ⟨⟨demoStart, demoActs, rfl, rfl⟩, rfl,
   (Run_completeness demoClient ⟨[]⟩ (demoRecords 1) demoMeta 5 demoRecords rfl rfl (by decide)
     (by decide)
     (by
       intro p k cs h
       simp only [demoClient] at h
       split at h
       · simp at h
       · simpa using h.symm)
     demoFinal ⟨demoStart, demoActs, rfl, rfl⟩).2 rfl rfl⟩

/-- C2 (one effect per task): for a page whose task is running in a reachable
state and for every normal result of `client.Fetch(page)`, `processPage`
returns and has exactly one of two effects.  On an error the page is appended
once to the queue while the cards and `processedPages` are unchanged; on
success the returned cards are appended to the storage and `processedPages`
grows by exactly 1 while the queue is unchanged. -/
theorem processPage_exactly_one_effect (c : Client) (st : CardStorage) (cards1 : List Card)
    (md : String → Int) (N : Int) (hf : c.FetchWithMetaData = (cards1, md, none))
    (hN : md "totalPages" = N) (h1 : 1 ≤ N) (h2 : N < 2 ^ 63)
    (s : Sys) (hr : Reachable c st s) (page : Int) (hp : page ∈ s.running)
    (r : FetchResult) (hnormal : r ≠ .fault) :
    ∃ w1, processPage r s.w page = .done w1 ∧
      (∀ msg, r = .err msg →
        w1.t.unprocessedPagesQueue.buf = s.w.t.unprocessedPagesQueue.buf ++ [page] ∧
        w1.t.storage.Cards = s.w.t.storage.Cards ∧
        w1.t.processedPages = s.w.t.processedPages) ∧
      (∀ cards, r = .ok cards →
        w1.t.storage.Cards = s.w.t.storage.Cards ++ cards ∧
        w1.t.processedPages = s.w.t.processedPages + 1 ∧
        w1.t.unprocessedPagesQueue = s.w.t.unprocessedPagesQueue) ∧
      Xor' (w1.t.unprocessedPagesQueue.buf = s.w.t.unprocessedPagesQueue.buf ++ [page])
        (w1.t.processedPages = s.w.t.processedPages + 1) := by
  have h := inv_reachable hf hN h1 h2 hr
  have hwg := h.wg_pos hp
  have hroom := h.room hp
  have hlt := h.processed_lt hp
  have htot := h.total
  have hmod : (s.w.t.processedPages + 1) % 2 ^ 64 = s.w.t.processedPages + 1 := by
    apply Nat.mod_eq_of_lt
    omega
  cases r with
  | fault => exact absurd rfl hnormal
  | err msg =>
    refine ⟨_, processPage_err msg s.w page hwg hroom, ?_, ?_, ?_⟩
    · intro _ _
      exact ⟨rfl, rfl, rfl⟩
    · intro cards hc
      simp at hc
    · exact Or.inl ⟨rfl, by simp⟩
  | ok cards =>
    refine ⟨_, processPage_ok cards s.w page hwg, ?_, ?_, ?_⟩
    · intro msg hc
      simp at hc
    · intro cards2 hc
      simp only [FetchResult.ok.injEq] at hc
      subst hc
      exact ⟨rfl, hmod, rfl⟩
    · exact Or.inr ⟨hmod, by simp⟩

/-- The example scenario inside its first burst, page 3 failing. -/
theorem processPage_exactly_one_effect_witness :
    Reachable demoClient ⟨[]⟩ demoBurst ∧ (3 : Int) ∈ demoBurst.running ∧
    ∃ w1, processPage (.err "could not fetch data") demoBurst.w 3 = .done w1 ∧
      (∀ msg, FetchResult.err "could not fetch data" = .err msg →
        w1.t.unprocessedPagesQueue.buf = demoBurst.w.t.unprocessedPagesQueue.buf ++ [3] ∧
        w1.t.storage.Cards = demoBurst.w.t.storage.Cards ∧
        w1.t.processedPages = demoBurst.w.t.processedPages) ∧
      (∀ cards, FetchResult.err "could not fetch data" = .ok cards →
        w1.t.storage.Cards = demoBurst.w.t.storage.Cards ++ cards ∧
        w1.t.processedPages = demoBurst.w.t.processedPages + 1 ∧
        w1.t.unprocessedPagesQueue = demoBurst.w.t.unprocessedPagesQueue) ∧
      Xor' (w1.t.unprocessedPagesQueue.buf = demoBurst.w.t.unprocessedPagesQueue.buf ++ [3])
        (w1.t.processedPages = demoBurst.w.t.processedPages + 1) :=
  ⟨⟨demoStart, demoBurstActs, rfl, rfl⟩, by decide,
   processPage_exactly_one_effect demoClient ⟨[]⟩ (demoRecords 1) demoMeta 5 rfl rfl (by decide)
     (by decide) demoBurst ⟨demoStart, demoBurstActs, rfl, rfl⟩ 3 (by decide)
     (.err "could not fetch data") (by simp)⟩

/-- C6 (fault isolation): when the task of a page that is running in a
reachable state raises an abnormal fault, `processPage` still returns
normally: the fault is recovered inside the task, the page is appended once to
the queue, the cards and `processedPages` are unchanged, and the wait group
has been signalled.  In no state at all does a panic leave `processPage`. -/
theorem processPage_fault_isolation (c : Client) (st : CardStorage) (cards1 : List Card)
    (md : String → Int) (N : Int) (hf : c.FetchWithMetaData = (cards1, md, none))
    (hN : md "totalPages" = N) (h1 : 1 ≤ N) (h2 : N < 2 ^ 63)
    (s : Sys) (hr : Reachable c st s) (page : Int) (hp : page ∈ s.running) :
    (∃ w1, processPage .fault s.w page = .done w1 ∧
      w1.t.unprocessedPagesQueue.buf = s.w.t.unprocessedPagesQueue.buf ++ [page] ∧
      w1.t.storage.Cards = s.w.t.storage.Cards ∧
      w1.t.processedPages = s.w.t.processedPages ∧
      w1.wg = s.w.wg - 1) ∧
    (∀ (r : FetchResult) (w w2 : World) (p : Int), processPage r w p ≠ .panicking w2) := by
  have h := inv_reachable hf hN h1 h2 hr
  refine ⟨⟨_, processPage_fault s.w page (h.wg_pos hp) (h.room hp), rfl, rfl, rfl, rfl⟩, ?_⟩
  intro r w w2 p
  exact processPage_not_panicking r w w2 p

/-- The example scenario inside its first burst, the task of page 2 raising a
fault. -/
theorem processPage_fault_isolation_witness :
    Reachable demoClient ⟨[]⟩ demoBurst ∧ (2 : Int) ∈ demoBurst.running ∧
    (∃ w1, processPage .fault demoBurst.w 2 = .done w1 ∧
      w1.t.unprocessedPagesQueue.buf = demoBurst.w.t.unprocessedPagesQueue.buf ++ [2] ∧
      w1.t.storage.Cards = demoBurst.w.t.storage.Cards ∧
      w1.t.processedPages = demoBurst.w.t.processedPages ∧
      w1.wg = demoBurst.w.wg - 1) ∧
    (∀ (r : FetchResult) (w w2 : World) (p : Int), processPage r w p ≠ .panicking w2) :=
  ⟨⟨demoStart, demoBurstActs, rfl, rfl⟩, by decide,
   processPage_fault_isolation demoClient ⟨[]⟩ (demoRecords 1) demoMeta 5 rfl rfl (by decide)
     (by decide) demoBurst ⟨demoStart, demoBurstActs, rfl, rfl⟩ 2 (by decide)⟩

/-- C7 (fatal bootstrap): when `FetchWithMetaData` returns an error,
`gatherMetaData` terminates the process with the throttler untouched, so `Run`
ends there: no call of `client.Fetch` has been made, no task has been
launched, the storage is the one `Run` started with, and no state of the loop
is ever reached. -/
theorem Run_fatal_bootstrap (c : Client) (st : CardStorage) (cards : List Card)
    (md : String → Int) (e : String) (hf : c.FetchWithMetaData = (cards, md, some e)) :
    (∀ t : throttler, gatherMetaData c t = .exited t) ∧
    (∃ s, start c st = .exited s ∧ s.w.fetchLog = [] ∧ s.running = [] ∧ s.w.wg = 0 ∧
      s.w.t.storage = st) ∧
    (∀ s, ¬ Reachable c st s) := by
  have hg : ∀ t : throttler, gatherMetaData c t = .exited t := by
    intro t
    unfold gatherMetaData
    rw [hf]
    simp
  refine ⟨hg, ⟨_, by unfold start; rw [hg], rfl, rfl, rfl, rfl⟩, ?_⟩
  rintro s ⟨s0, acts, hs, -⟩
  unfold start at hs
  rw [hg] at hs
  simp at hs

/-- A client whose bootstrap call fails, on a storage that already holds cards. -/
theorem Run_fatal_bootstrap_witness :
    deadClient.FetchWithMetaData = ([], fun _ => 0, some "could not fetch data") ∧
    (∀ t : throttler, gatherMetaData deadClient t = .exited t) ∧
    (∃ s, start deadClient ⟨cardsGold⟩ = .exited s ∧ s.w.fetchLog = [] ∧ s.running = [] ∧
      s.w.wg = 0 ∧ s.w.t.storage = ⟨cardsGold⟩) ∧
    (∀ s, ¬ Reachable deadClient ⟨cardsGold⟩ s) :=
  ⟨rfl, Run_fatal_bootstrap deadClient ⟨cardsGold⟩ [] (fun _ => 0) "could not fetch data" rfl⟩

/-- C8 (no return while a page is unfinished): when some page `p` in
`2..totalPages` fails at every fetch attempt, every reachable state has
`processedPages < totalPages`, so `noMorePageToProcess` is false at every
check and `Run` neither leaves its loop nor returns, while it always has a
next step to take in the loop; and at the head of the loop `Run` leaves the
loop exactly when `processedPages = totalPages`. -/
theorem Run_never_returns_on_failing_page (c : Client) (st : CardStorage)
    (cards1 : List Card) (md : String → Int) (N : Int)
    (hf : c.FetchWithMetaData = (cards1, md, none)) (hN : md "totalPages" = N)
    (h1 : 1 ≤ N) (h2 : N < 2 ^ 63)
    (p : Int) (hp2 : 2 ≤ p) (hpN : p ≤ N) (hfail : ∀ k cs, c.Fetch p k ≠ .ok cs)
    (s : Sys) (hr : Reachable c st s) :
    s.w.t.processedPages < s.w.t.totalPages ∧
    noMorePageToProcess s.w.t = false ∧
    s.loc ≠ .waiting ∧ s.loc ≠ .returned ∧
    (∃ s1, stepRun s = some s1) ∧
    (∀ s1 : Sys, s1.loc = .loopTop →
      (stepRun s1 = some { s1 with loc := .waiting } ↔
        s1.w.t.processedPages = s1.w.t.totalPages)) := by
  have h := inv_reachable hf hN h1 h2 hr
  have hc := h.count
  have ht := h.total
  obtain ⟨done, hperm, hproc, -, hall⟩ := h.pages
  have hmem : p ∈ s.w.t.unprocessedPagesQueue.buf ++ s.running := by
    have hp : p ∈ pagesFrom2 N := (mem_pagesFrom2 N p).2 ⟨hp2, hpN⟩
    have hp3 := hperm.symm.subset hp
    rcases List.mem_append.1 hp3 with hq | hd
    · exact hq
    · exfalso
      obtain ⟨x, hx, hxp⟩ := List.mem_map.1 hd
      obtain ⟨k, hk⟩ := hall x hx
      rw [hxp] at hk
      exact hfail k _ hk
  have hpos := List.length_pos_of_mem hmem
  rw [List.length_append] at hpos
  have hlt : s.w.t.processedPages < s.w.t.totalPages := by omega
  have hw : s.loc ≠ .waiting := by
    intro hloc
    have := h.finished (Or.inl hloc)
    omega
  have hret : s.loc ≠ .returned := by
    intro hloc
    have := h.finished (Or.inr hloc)
    omega
  refine ⟨hlt, ?_, hw, hret, ?_, ?_⟩
  · simp only [noMorePageToProcess, beq_eq_false_iff_ne, ne_eq]
    omega
  · unfold stepRun
    cases hloc : s.loc with
    | gathering => exact absurd hloc h.started
    | loopTop =>
      simp only
      split
      · exact ⟨_, rfl⟩
      · exact ⟨_, rfl⟩
    | ticking => exact ⟨_, rfl⟩
    | burst i n =>
      obtain ⟨-, -, -, hq⟩ := h.burst i n hloc
      simp only
      by_cases hin : i < n
      · simp only [if_pos hin]
        cases hbuf : s.w.t.unprocessedPagesQueue.buf with
        | nil =>
          exfalso
          simp only [Chan.len, hbuf, List.length_nil] at hq
          omega
        | cons v rest =>
          simp only [Chan.recv, hbuf]
          exact ⟨_, rfl⟩
      · simp only [if_neg hin]
        exact ⟨_, rfl⟩
    | waiting => exact absurd hloc hw
    | returned => exact absurd hloc hret
    | crashed => exact absurd hloc h.alive
  · intro s1 hloc
    unfold stepRun
    rw [hloc]
    simp only [noMorePageToProcess, beq_iff_eq]
    constructor
    · intro hstep
      by_contra hne
      rw [if_neg hne] at hstep
      simp only [Option.some.injEq] at hstep
      have := congrArg Sys.loc hstep
      simp at this
    · intro heq
      rw [if_pos heq]

/-- Two pages, the second failing at every attempt: after one failed attempt
the run is back at the head of the loop with the page in the queue. -/
theorem Run_never_returns_on_failing_page_witness :
    Reachable stuckClient ⟨[]⟩ stuckState ∧
    stuckState.w.t.processedPages < stuckState.w.t.totalPages ∧
    noMorePageToProcess stuckState.w.t = false ∧
    stuckState.loc ≠ .waiting ∧ stuckState.loc ≠ .returned ∧
    (∃ s1, stepRun stuckState = some s1) ∧
    (∀ s1 : Sys, s1.loc = .loopTop →
      (stepRun s1 = some { s1 with loc := .waiting } ↔
        s1.w.t.processedPages = s1.w.t.totalPages)) :=
  ⟨⟨stuckStart, stuckActs, rfl, rfl⟩,
   Run_never_returns_on_failing_page stuckClient ⟨[]⟩ (demoRecords 1) stuckMeta 2 rfl rfl
     (by decide) (by decide) 2 (by decide) (by decide) (by intro k cs h; simp [stuckClient] at h)
     stuckState ⟨stuckStart, stuckActs, rfl, rfl⟩⟩

/-- C3 (bounded burst): `burstRequests` returns the minimum of the queue
length and `maxBurstRequests`; a throttler built by `NewThrottler` has
`maxBurstRequests = 3` and keeps it; a tick of the loop of `Run` fixes the
burst size `n` as the minimum of the current queue length and 3 (zero on an
empty queue); and inside a burst the number `i` of tasks launched so far
satisfies `i ≤ n ≤ 3`, the next step of `Run` launching one more task exactly
when `i < n` and going back to the head of the loop otherwise. -/
theorem burstRequests_bounded :
    (∀ t : throttler,
      burstRequests t = min t.unprocessedPagesQueue.len t.maxBurstRequests) ∧
    (∀ st : CardStorage, (NewThrottler st).maxBurstRequests = 3) ∧
    (∀ (c : Client) (st : CardStorage) (s : Sys), Reachable c st s →
      s.w.t.maxBurstRequests = 3 ∧
      (s.loc = .ticking →
        stepRun s = some { s with loc := .burst 0 (min s.w.t.unprocessedPagesQueue.len 3) }) ∧
      (s.w.t.unprocessedPagesQueue.buf = [] → burstRequests s.w.t = 0) ∧
      (∀ i n, s.loc = .burst i n →
        0 ≤ i ∧ i ≤ n ∧ n ≤ 3 ∧
        ∃ s1, stepRun s = some s1 ∧
          ((i < n ∧ s1.loc = .burst (i + 1) n ∧
              s1.running.length = s.running.length + 1) ∨
           (i = n ∧ s1.loc = .loopTop ∧ s1.running = s.running)))) := by
  have hmin : ∀ t : throttler,
      burstRequests t = min t.unprocessedPagesQueue.len t.maxBurstRequests := by
    intro t
    unfold burstRequests
    simp only [gt_iff_lt]
    split
    · rename_i h
      exact (min_eq_right (le_of_lt h)).symm
    · rename_i h
      exact (min_eq_left (not_lt.1 h)).symm
  refine ⟨hmin, fun _ => rfl, ?_⟩
  intro c st s hr
  have h := burstInv_reachable hr
  refine ⟨h.maxBurst, ?_, ?_, ?_⟩
  · intro hloc
    unfold stepRun
    rw [hloc]
    simp only [hmin, h.maxBurst]
  · intro hbuf
    rw [hmin, h.maxBurst]
    simp [Chan.len, hbuf]
  · intro i n hloc
    obtain ⟨hi0, hin, hn3, hq⟩ := h.burst i n hloc
    refine ⟨hi0, hin, hn3, ?_⟩
    unfold stepRun
    rw [hloc]
    by_cases hlt : i < n
    · simp only [if_pos hlt]
      cases hbuf : s.w.t.unprocessedPagesQueue.buf with
      | nil =>
        exfalso
        simp only [Chan.len, hbuf, List.length_nil] at hq
        omega
      | cons v rest =>
        simp only [Chan.recv, hbuf]
        exact ⟨_, rfl, Or.inl ⟨hlt, rfl, by simp⟩⟩
    · simp only [if_neg hlt]
      exact ⟨_, rfl, Or.inr ⟨by omega, rfl, rfl⟩⟩

/-- The example scenario inside its first burst: two tasks launched out of
three. -/
theorem burstRequests_bounded_witness :
    Reachable demoClient ⟨[]⟩ demoBurst ∧
    demoBurst.w.t.maxBurstRequests = 3 ∧
    (∀ i n, demoBurst.loc = .burst i n →
        0 ≤ i ∧ i ≤ n ∧ n ≤ 3 ∧
        ∃ s1, stepRun demoBurst = some s1 ∧
          ((i < n ∧ s1.loc = .burst (i + 1) n ∧
              s1.running.length = demoBurst.running.length + 1) ∨
           (i = n ∧ s1.loc = .loopTop ∧ s1.running = demoBurst.running))) :=
  ⟨⟨demoStart, demoBurstActs, rfl, rfl⟩,
   (burstRequests_bounded.2.2 demoClient ⟨[]⟩ demoBurst
     ⟨demoStart, demoBurstActs, rfl, rfl⟩).1,
   (burstRequests_bounded.2.2 demoClient ⟨[]⟩ demoBurst
     ⟨demoStart, demoBurstActs, rfl, rfl⟩).2.2.2⟩

/-- C9 (evaluation of the code): `FilterKTKColors` with "red" and "blue" keeps
a card of the set KTK whose colours are blue, red and white, a card that does
not have only the colours red and blue. -/
theorem FilterKTKColors_keeps_third_colour :
    FilterKTKColors [mantisRider] "red" "blue" = [mantisRider] ∧
    "White" ∈ mantisRider.Colors := by
  constructor
  · simp [FilterKTKColors, containsColors, ToLower, mantisRider]
  · simp [mantisRider]

/-- C10 (sort by set): for every card slice `c`, the slice after `SortBySet` is
a permutation of `c` and is in ascending order of the `Set` field; on the three
cards of the test, with the sets 5FC, 10E and Z8A, it is exactly the expected
order 10E, 5FC, Z8A. -/
theorem SortBySet_sorted_perm :
    (∀ c : List Card,
      (SortBySet c).Perm c ∧ (SortBySet c).Pairwise (fun a b => a.Set ≤ b.Set)) ∧
    SortBySet cardsUnsortedInput = cardsGold := by
  constructor
  · intro c
    constructor
    · unfold SortBySet sortSlice
      refine (List.reverse_perm _).trans ?_
      simpa using foldl_sinkLeft_perm (fun a b => decide (a.Set < b.Set)) c []
    · unfold SortBySet sortSlice
      rw [List.pairwise_reverse]
      exact foldl_sinkLeft_sorted c [] List.Pairwise.nil
  · simp [SortBySet, sortSlice, sinkLeft, cardsUnsortedInput, cardsGold]
    decide

end Mtg
